import Mathlib

/-!
Verification of the Zeus market-data recorder: a shallow embedding of its
hand-written WebSocket client (frame codec, handshake validation, stream
reassembly, ping/pong liveness) and of the recording pipeline (per-message
buffer appends, minute-aligned flush cycle, bounded reconnect supervision).

Bytes are modelled as natural numbers (each < 256 on the wire); buffers as
`List Nat`; decoded text as `List Char`.  Fallible operations return
`Option`, with `none` standing for a raised exception.
-/

namespace Zeus

/-- Big-endian byte rendering of `n` into `w` bytes, as Python
`n.to_bytes(length=w, byteorder="big")` produces (for `n < 256 ^ w`). -/
def toBytesBE : Nat → Nat → List Nat
  | 0, _ => []
  | w + 1, n => toBytesBE w (n / 256) ++ [n % 256]

/-- Big-endian byte reading, as Python
`int.from_bytes(bs, byteorder="big")` computes. -/
def fromBytesBE (bs : List Nat) : Nat :=
  bs.foldl (fun acc b => acc * 256 + b) 0

theorem toBytesBE_length (w n : Nat) : (toBytesBE w n).length = w := by
  induction w generalizing n with
  | zero => rfl
  | succ w ih => simp [toBytesBE, ih]

theorem fromBytesBE_append_singleton (l : List Nat) (b : Nat) :
    fromBytesBE (l ++ [b]) = fromBytesBE l * 256 + b := by
  simp [fromBytesBE, List.foldl_append]

theorem fromBytesBE_toBytesBE (w n : Nat) (h : n < 256 ^ w) :
    fromBytesBE (toBytesBE w n) = n := by
  induction w generalizing n with
  | zero =>
    simp [toBytesBE, fromBytesBE]
    omega
  | succ w ih =>
    have hdiv : n / 256 < 256 ^ w := by
      rw [Nat.div_lt_iff_lt_mul (by norm_num)]
      calc n < 256 ^ (w + 1) := h
        _ = 256 ^ w * 256 := by ring
    rw [toBytesBE, fromBytesBE_append_singleton, ih _ hdiv]
    omega

/-- The websocket frame opcodes of `_WebSocketFrameType`. -/
inductive FrameType where
  | CONT | TEXT | BIN | CLOSE | PING | PONG
deriving DecidableEq

/-- Numeric value of an opcode, as in the `IntEnum`. -/
def FrameType.code : FrameType → Nat
  | .CONT => 0
  | .TEXT => 1
  | .BIN => 2
  | .CLOSE => 8
  | .PING => 9
  | .PONG => 10

/-- `_WebSocketFrameType(n)`: `none` models the `ValueError` the `IntEnum`
constructor raises on a value that is not a member. -/
def FrameType.ofCode (m : Nat) : Option FrameType :=
  if m = 0 then some .CONT
  else if m = 1 then some .TEXT
  else if m = 2 then some .BIN
  else if m = 8 then some .CLOSE
  else if m = 9 then some .PING
  else if m = 10 then some .PONG
  else none

/-- `FRAME_HEADER_SIZE` constant. -/
def FRAME_HEADER_SIZE : Nat := 2

/-- `FRAME_MASK`: four zero bytes. -/
def FRAME_MASK : List Nat := [0, 0, 0, 0]

/-- `WebSocketHelper.pack`: one opcode byte with the FIN bit set, the
three-tier length field with the mask bit set, the all-zero mask, then the
payload unmodified. -/
def pack (typ : FrameType) (data : List Nat) : List Nat :=
  let n := data.length
  (if n < 126 then [128 + typ.code, 128 + n]
   else if n < 65536 then [128 + typ.code, 254] ++ toBytesBE 2 n
   else [128 + typ.code, 255] ++ toBytesBE 8 n) ++ FRAME_MASK ++ data

/-- Size of the header `pack` writes before the mask for a payload of
`L` bytes: 2, 4 or 10 depending on the length tier. -/
def headerSize (L : Nat) : Nat :=
  if L < 126 then 2 else if L < 65536 then 4 else 10

/-- `WebSocketHelper.unpack_from`: decode a frame header at `start`.
`none` models the raised `ValueError` (reserved bit set, or opcode not a
member of the enum); a returned length of `-1` is the in-band signal that
the extended-length bytes are not yet available. -/
def unpack_from (data : List Nat) (start : Nat) : Option (FrameType × Int × Bool) :=
  let b0 := data.getD start 0
  if b0 &&& 112 ≠ 0 then none
  else
    match FrameType.ofCode (b0 &&& 15) with
    | none => none
    | some typ =>
      let len0 := (data.getD (start + 1) 0) &&& 127
      let final : Bool := b0 &&& 128 ≠ 0
      if len0 = 126 then
        if data.length - start > FRAME_HEADER_SIZE + 2 then
          some (typ, Int.ofNat (fromBytesBE ((data.drop (start + 2)).take 2)), final)
        else some (typ, -1, final)
      else if len0 = 127 then
        if data.length - start > FRAME_HEADER_SIZE + 8 then
          some (typ, Int.ofNat (fromBytesBE ((data.drop (start + 2)).take 8)), final)
        else some (typ, -1, final)
      else some (typ, Int.ofNat len0, final)

theorem FrameType.code_lt (t : FrameType) : t.code < 16 := by
  cases t <;> simp [FrameType.code]

theorem FrameType.ofCode_code (t : FrameType) : FrameType.ofCode t.code = some t := by
  cases t <;> rfl

theorem fin_opcode_and_112 (t : FrameType) : (128 + t.code) &&& 112 = 0 := by
  cases t <;> decide

theorem fin_opcode_and_15 (t : FrameType) : (128 + t.code) &&& 15 = t.code := by
  cases t <;> decide

theorem fin_opcode_and_128 (t : FrameType) : (128 + t.code) &&& 128 = 128 := by
  cases t <;> decide

theorem and_127_of_lt (n : Nat) (h : n < 126) : (128 + n) &&& 127 = n := by
  rw [show (127 : Nat) = 2 ^ 7 - 1 by norm_num, Nat.and_pow_two_sub_one_eq_mod]
  omega

theorem ofCode_eq_none_iff (m : Nat) :
    FrameType.ofCode m = none ↔ m ∉ ([0, 1, 2, 8, 9, 10] : List Nat) := by
  unfold FrameType.ofCode
  split_ifs with h0 h1 h2 h8 h9 h10 <;> simp_all

theorem unpack_from_none_iff (data : List Nat) (start : Nat) :
    unpack_from data start = none ↔
      (data.getD start 0) &&& 112 ≠ 0 ∨
        FrameType.ofCode ((data.getD start 0) &&& 15) = none := by
  unfold unpack_from
  by_cases h112 : (data.getD start 0) &&& 112 = 0
  · rw [if_neg (fun hne => hne h112)]
    cases hof : FrameType.ofCode ((data.getD start 0) &&& 15) with
    | none => simp
    | some t =>
      simp only []
      rw [h112]
      by_cases hc126 : (data.getD (start + 1) 0) &&& 127 = 126
      · rw [if_pos hc126]
        split_ifs <;> simp
      · rw [if_neg hc126]
        by_cases hc127 : (data.getD (start + 1) 0) &&& 127 = 127
        · rw [if_pos hc127]
          split_ifs <;> simp
        · rw [if_neg hc127]
          simp
  · rw [if_pos h112]
    exact iff_of_true rfl (Or.inl h112)

theorem unpack_from_ok (data : List Nat) (start : Nat) (t : FrameType)
    (h112 : (data.getD start 0) &&& 112 = 0)
    (hof : FrameType.ofCode ((data.getD start 0) &&& 15) = some t) :
    unpack_from data start =
      if (data.getD (start + 1) 0) &&& 127 = 126 then
        if data.length - start > FRAME_HEADER_SIZE + 2 then
          some (t, Int.ofNat (fromBytesBE ((data.drop (start + 2)).take 2)),
            decide ((data.getD start 0) &&& 128 ≠ 0))
        else some (t, -1, decide ((data.getD start 0) &&& 128 ≠ 0))
      else if (data.getD (start + 1) 0) &&& 127 = 127 then
        if data.length - start > FRAME_HEADER_SIZE + 8 then
          some (t, Int.ofNat (fromBytesBE ((data.drop (start + 2)).take 8)),
            decide ((data.getD start 0) &&& 128 ≠ 0))
        else some (t, -1, decide ((data.getD start 0) &&& 128 ≠ 0))
      else some (t, Int.ofNat ((data.getD (start + 1) 0) &&& 127),
        decide ((data.getD start 0) &&& 128 ≠ 0)) := by
  unfold unpack_from
  rw [if_neg (fun hne => hne h112), hof]


/-- Any prefix of known length dropped from an append leaves the suffix. -/
theorem drop_prefix_take (pre payload : List Nat) (k : Nat) (h : pre.length = k) :
    ((pre ++ payload).drop k).take payload.length = payload := by
  rw [List.drop_left' h, List.take_length]

/-- C1: decoding the frame produced by `pack` recovers the frame type, the
payload length and (after the header and the 4 mask bytes) the payload
itself, with the FIN flag reported true.  Proved for every payload whose
length fits Python's 8-byte `to_bytes` bound, which covers the claimed
lengths 0, 1, 125, 126, 65535 and 65536. -/
theorem C1_pack_unpack_roundtrip (typ : FrameType) (payload : List Nat)
    (h : payload.length < 2 ^ 64) :
    unpack_from (pack typ payload) 0 = some (typ, Int.ofNat payload.length, true) ∧
    ((pack typ payload).drop (headerSize payload.length + FRAME_MASK.length)).take
        payload.length = payload := by
  have hb0 := fin_opcode_and_112 typ
  have hb15 := fin_opcode_and_15 typ
  have hb128 := fin_opcode_and_128 typ
  by_cases h1 : payload.length < 126
  · have hpack : pack typ payload =
        ((128 + typ.code) :: (128 + payload.length) :: FRAME_MASK) ++ payload := by
      simp [pack, if_pos h1]
    have hlen0 := and_127_of_lt payload.length h1
    constructor
    · rw [hpack, unpack_from_ok _ 0 typ (by exact hb0)
        (by rw [show ((((128 + typ.code) :: (128 + payload.length) :: FRAME_MASK) ++
          payload).getD 0 0) &&& 15 = typ.code from hb15]; exact FrameType.ofCode_code typ)]
      rw [show (((128 + typ.code) :: (128 + payload.length) :: FRAME_MASK) ++
        payload).getD (0 + 1) 0 = 128 + payload.length from rfl, hlen0]
      rw [if_neg (by omega), if_neg (by omega)]
      rw [show (((128 + typ.code) :: (128 + payload.length) :: FRAME_MASK) ++
        payload).getD 0 0 = 128 + typ.code from rfl, hb128]
      simp
    · rw [hpack]
      have hhs : headerSize payload.length + FRAME_MASK.length = 6 := by
        simp [headerSize, if_pos h1, FRAME_MASK]
      rw [hhs]
      exact drop_prefix_take _ payload 6 (by simp [FRAME_MASK])
  · by_cases h2 : payload.length < 65536
    · have hpack : pack typ payload =
          ((128 + typ.code) :: 254 :: (toBytesBE 2 payload.length ++ FRAME_MASK)) ++ payload := by
        simp [pack, if_neg h1, if_pos h2]
      have hlen : ((((128 + typ.code) :: 254 :: (toBytesBE 2 payload.length ++ FRAME_MASK)) ++
          payload)).length = 8 + payload.length := by
        simp [toBytesBE_length, FRAME_MASK]
        omega
      constructor
      · rw [hpack, unpack_from_ok _ 0 typ (by exact hb0)
          (by rw [show ((((128 + typ.code) :: 254 :: (toBytesBE 2 payload.length ++ FRAME_MASK)) ++
            payload).getD 0 0) &&& 15 = typ.code from hb15]; exact FrameType.ofCode_code typ)]
        rw [show (((128 + typ.code) :: 254 :: (toBytesBE 2 payload.length ++ FRAME_MASK)) ++
          payload).getD (0 + 1) 0 = 254 from rfl]
        rw [if_pos (by decide), if_pos (by rw [hlen]; simp only [FRAME_HEADER_SIZE]; omega)]
        have hext : ((((128 + typ.code) :: 254 ::
            (toBytesBE 2 payload.length ++ FRAME_MASK)) ++ payload).drop (0 + 2)).take 2 =
            toBytesBE 2 payload.length := by
          simp only [List.cons_append, List.drop_succ_cons, List.drop_zero, List.append_assoc]
          exact List.take_left' (toBytesBE_length 2 payload.length)
        rw [hext, fromBytesBE_toBytesBE 2 payload.length (by norm_num; omega)]
        rw [show (((128 + typ.code) :: 254 :: (toBytesBE 2 payload.length ++ FRAME_MASK)) ++
          payload).getD 0 0 = 128 + typ.code from rfl, hb128]
        simp
      · rw [hpack]
        have hhs : headerSize payload.length + FRAME_MASK.length = 8 := by
          simp [headerSize, if_neg h1, if_pos h2, FRAME_MASK]
        rw [hhs]
        exact drop_prefix_take _ payload 8 (by simp [FRAME_MASK, toBytesBE_length])
    · have hpack : pack typ payload =
          ((128 + typ.code) :: 255 :: (toBytesBE 8 payload.length ++ FRAME_MASK)) ++ payload := by
        simp [pack, if_neg h1, if_neg h2]
      have hlen : ((((128 + typ.code) :: 255 :: (toBytesBE 8 payload.length ++ FRAME_MASK)) ++
          payload)).length = 14 + payload.length := by
        simp [toBytesBE_length, FRAME_MASK]
        omega
      constructor
      · rw [hpack, unpack_from_ok _ 0 typ (by exact hb0)
          (by rw [show ((((128 + typ.code) :: 255 :: (toBytesBE 8 payload.length ++ FRAME_MASK)) ++
            payload).getD 0 0) &&& 15 = typ.code from hb15]; exact FrameType.ofCode_code typ)]
        rw [show (((128 + typ.code) :: 255 :: (toBytesBE 8 payload.length ++ FRAME_MASK)) ++
          payload).getD (0 + 1) 0 = 255 from rfl]
        rw [if_neg (by decide), if_pos (by decide),
          if_pos (by rw [hlen]; simp only [FRAME_HEADER_SIZE]; omega)]
        have hext : ((((128 + typ.code) :: 255 ::
            (toBytesBE 8 payload.length ++ FRAME_MASK)) ++ payload).drop (0 + 2)).take 8 =
            toBytesBE 8 payload.length := by
          simp only [List.cons_append, List.drop_succ_cons, List.drop_zero, List.append_assoc]
          exact List.take_left' (toBytesBE_length 8 payload.length)
        rw [hext, fromBytesBE_toBytesBE 8 payload.length (by norm_num; omega)]
        rw [show (((128 + typ.code) :: 255 :: (toBytesBE 8 payload.length ++ FRAME_MASK)) ++
          payload).getD 0 0 = 128 + typ.code from rfl, hb128]
        simp
      · rw [hpack]
        have hhs : headerSize payload.length + FRAME_MASK.length = 14 := by
          simp [headerSize, if_neg h1, if_neg h2, FRAME_MASK]
        rw [hhs]
        exact drop_prefix_take _ payload 14 (by simp [FRAME_MASK, toBytesBE_length])

/-- Witness for C1 at the concrete frame `pack TEXT [7]`. -/
theorem C1_pack_unpack_roundtrip_witness :
    ([7] : List Nat).length < 2 ^ 64 ∧
    (unpack_from (pack .TEXT [7]) 0 = some (.TEXT, Int.ofNat ([7] : List Nat).length, true) ∧
     ((pack .TEXT [7]).drop (headerSize ([7] : List Nat).length + FRAME_MASK.length)).take
         ([7] : List Nat).length = [7]) :=
  ⟨by norm_num, C1_pack_unpack_roundtrip .TEXT [7] (by norm_num)⟩

theorem int_ofNat_ne_neg_one (n : Nat) : ¬(Int.ofNat n = -1) := by
  rw [Int.ofNat_eq_natCast]
  omega

/-- C2 (amended): with the 2 fixed header bytes available, `unpack_from`
raises a protocol error iff a reserved bit is set or the opcode nibble is
not one of the six members of the frame-type enum; on success, for base
length code 126 (resp. 127) it reports length `-1` iff the buffer holds
fewer than 5 (resp. 11) bytes from the offset -- that is, one byte beyond
the extended-length field is also required -- and otherwise decodes the
extended length; any other base code is returned directly, with the FIN
bit as `final`. -/
theorem C2_header_decode (data : List Nat) (start : Nat)
    (havail : start + 2 ≤ data.length) :
    (unpack_from data start = none ↔
        (data.getD start 0) &&& 112 ≠ 0 ∨
          (data.getD start 0) &&& 15 ∉ ([0, 1, 2, 8, 9, 10] : List Nat)) ∧
    (∀ t : FrameType, ∀ l : Int, ∀ f : Bool,
        unpack_from data start = some (t, l, f) →
          FrameType.ofCode ((data.getD start 0) &&& 15) = some t ∧
          (f = true ↔ (data.getD start 0) &&& 128 ≠ 0) ∧
          ((data.getD (start + 1) 0) &&& 127 = 126 →
            (l = -1 ↔ data.length < start + 5) ∧
            (start + 5 ≤ data.length →
              l = Int.ofNat (fromBytesBE ((data.drop (start + 2)).take 2)))) ∧
          ((data.getD (start + 1) 0) &&& 127 = 127 →
            (l = -1 ↔ data.length < start + 11) ∧
            (start + 11 ≤ data.length →
              l = Int.ofNat (fromBytesBE ((data.drop (start + 2)).take 8)))) ∧
          ((data.getD (start + 1) 0) &&& 127 < 126 →
            l = Int.ofNat ((data.getD (start + 1) 0) &&& 127))) := by
  constructor
  · rw [unpack_from_none_iff, ofCode_eq_none_iff]
  · intro t l f heq
    have hnn : ¬(unpack_from data start = none) := by rw [heq]; simp
    rw [unpack_from_none_iff] at hnn
    push_neg at hnn
    obtain ⟨h112, hofne⟩ := hnn
    obtain ⟨t0, hof⟩ := Option.ne_none_iff_exists'.mp hofne
    rw [unpack_from_ok data start t0 h112 hof] at heq
    by_cases hc126 : (data.getD (start + 1) 0) &&& 127 = 126
    · rw [if_pos hc126] at heq
      by_cases hgt2 : data.length - start > FRAME_HEADER_SIZE + 2
      · rw [if_pos hgt2] at heq
        simp only [Option.some.injEq, Prod.mk.injEq] at heq
        obtain ⟨rfl, rfl, rfl⟩ := heq
        simp only [FRAME_HEADER_SIZE] at hgt2
        refine ⟨hof, by simp, ?_, ?_, ?_⟩
        · intro _
          refine ⟨⟨fun hx => ?_, fun hx => ?_⟩, fun _ => rfl⟩
          · exact absurd hx (int_ofNat_ne_neg_one _)
          · exact absurd hx (by omega)
        · intro hc127x
          rw [hc126] at hc127x
          exact absurd hc127x (by norm_num)
        · intro hltx
          rw [hc126] at hltx
          exact absurd hltx (by norm_num)
      · rw [if_neg hgt2] at heq
        simp only [Option.some.injEq, Prod.mk.injEq] at heq
        obtain ⟨rfl, rfl, rfl⟩ := heq
        simp only [FRAME_HEADER_SIZE] at hgt2
        refine ⟨hof, by simp, ?_, ?_, ?_⟩
        · intro _
          refine ⟨⟨fun _ => by omega, fun _ => rfl⟩, fun hx => absurd hx (by omega)⟩
        · intro hc127x
          rw [hc126] at hc127x
          exact absurd hc127x (by norm_num)
        · intro hltx
          rw [hc126] at hltx
          exact absurd hltx (by norm_num)
    · rw [if_neg hc126] at heq
      by_cases hc127 : (data.getD (start + 1) 0) &&& 127 = 127
      · rw [if_pos hc127] at heq
        by_cases hgt8 : data.length - start > FRAME_HEADER_SIZE + 8
        · rw [if_pos hgt8] at heq
          simp only [Option.some.injEq, Prod.mk.injEq] at heq
          obtain ⟨rfl, rfl, rfl⟩ := heq
          simp only [FRAME_HEADER_SIZE] at hgt8
          refine ⟨hof, by simp, fun hc126x => absurd hc126x hc126, ?_, ?_⟩
          · intro _
            refine ⟨⟨fun hx => ?_, fun hx => ?_⟩, fun _ => rfl⟩
            · exact absurd hx (int_ofNat_ne_neg_one _)
            · exact absurd hx (by omega)
          · intro hltx
            rw [hc127] at hltx
            exact absurd hltx (by norm_num)
        · rw [if_neg hgt8] at heq
          simp only [Option.some.injEq, Prod.mk.injEq] at heq
          obtain ⟨rfl, rfl, rfl⟩ := heq
          simp only [FRAME_HEADER_SIZE] at hgt8
          refine ⟨hof, by simp, fun hc126x => absurd hc126x hc126, ?_, ?_⟩
          · intro _
            refine ⟨⟨fun _ => by omega, fun _ => rfl⟩, fun hx => absurd hx (by omega)⟩
          · intro hltx
            rw [hc127] at hltx
            exact absurd hltx (by norm_num)
      · rw [if_neg hc127] at heq
        simp only [Option.some.injEq, Prod.mk.injEq] at heq
        obtain ⟨rfl, rfl, rfl⟩ := heq
        exact ⟨hof, by simp, fun hc126x => absurd hc126x hc126,
          fun hc127x => absurd hc127x hc127, fun _ => rfl⟩

/-- C2 counterexample: byte 0x83 has all three reserved bits clear yet
`unpack_from` raises (opcode 3 is not an enum member), and a buffer whose
two extended-length bytes are fully present (4 bytes, base code 126) is
still reported as incomplete (length -1). -/
theorem C2_header_decode_counterexample :
    ((131 : Nat) &&& 112 = 0) ∧ unpack_from [131, 0] 0 = none ∧
    unpack_from [129, 126, 0, 5] 0 = some (.TEXT, -1, true) ∧
    (([129, 126, 0, 5] : List Nat).drop 2).take 2 = [0, 5] := by decide

/-- Witness for C2 at the concrete buffer `[0x81, 0x00]`. -/
theorem C2_header_decode_witness :
    0 + 2 ≤ ([129, 0] : List Nat).length ∧
    (unpack_from [129, 0] 0 = none ↔
      (([129, 0] : List Nat).getD 0 0) &&& 112 ≠ 0 ∨
        (([129, 0] : List Nat).getD 0 0) &&& 15 ∉ ([0, 1, 2, 8, 9, 10] : List Nat)) :=
  ⟨by decide, (C2_header_decode [129, 0] 0 (by decide)).1⟩

/-- Python `str.split(sep)` for a two-character separator `[a, b]`:
non-overlapping left-to-right scan, always at least one (possibly empty)
part. -/
def splitOn2 (a b : Char) : List Char → List (List Char)
  | [] => [[]]
  | [c] => [[c]]
  | c :: d :: rest =>
    if c = a ∧ d = b then [] :: splitOn2 a b rest
    else
      match splitOn2 a b (d :: rest) with
      | [] => [[c]]
      | t :: ts => (c :: t) :: ts

/-- The exact status line `check_handshake` requires. -/
def statusLine : List Char := "HTTP/1.1 101 Switching Protocols".toList

/-- The header name scanned for, lower-cased. -/
def acceptKey : List Char := "sec-websocket-accept".toList

/-- The header-scanning loop of `check_handshake`: each line is unpacked
by `line.split(": ", 2)` into exactly a key and a value (`none` models the
`ValueError` Python raises when the split does not yield exactly two
parts); the first line whose lower-cased key is `sec-websocket-accept`
decides the result by exact comparison of its value with the expected
accept value. -/
def scanAccept (accept : List Char) : List (List Char) → Option Bool
  | [] => some false
  | line :: rest =>
    match splitOn2 ':' ' ' line with
    | [k, v] =>
      if k.map Char.toLower = acceptKey then some (decide (v = accept))
      else scanAccept accept rest
    | _ => none

/-- `WebSocketHelper.check_handshake`: split the decoded response on CRLF,
require the exact `HTTP/1.1 101 Switching Protocols` status line, then
scan the remaining lines. -/
def check_handshake (accept : List Char) (data : List Char) : Option Bool :=
  match splitOn2 '\r' '\n' data with
  | [] => some false
  | first :: rest =>
    if first = statusLine then scanAccept accept rest else some false

theorem scanAccept_some_true_iff (accept : List Char) (ls : List (List Char)) :
    scanAccept accept ls = some true ↔
      ∃ pre line post, ls = pre ++ line :: post ∧
        (∀ l ∈ pre, ∃ k v, splitOn2 ':' ' ' l = [k, v] ∧
          k.map Char.toLower ≠ acceptKey) ∧
        ∃ k, splitOn2 ':' ' ' line = [k, accept] ∧
          k.map Char.toLower = acceptKey := by
  induction ls with
  | nil =>
    simp only [scanAccept]
    constructor
    · intro h
      exact absurd h (by simp)
    · rintro ⟨pre, line, post, heq, -, -⟩
      exact absurd heq (by simp)
  | cons line rest ih =>
    constructor
    · intro h
      rw [scanAccept] at h
      rcases hsp : splitOn2 ':' ' ' line with _ | ⟨k, _ | ⟨v, _ | _⟩⟩ <;> rw [hsp] at h
      · exact absurd h (by simp)
      · exact absurd h (by simp)
      · simp only [] at h
        by_cases hkey : k.map Char.toLower = acceptKey
        · rw [if_pos hkey] at h
          have hv : v = accept := by
            have := Option.some.inj h
            simpa using this
          exact ⟨[], line, rest, by simp, by simp, k, by rw [hsp, hv], hkey⟩
        · rw [if_neg hkey] at h
          obtain ⟨pre, ln, post, heq, hpre, k0, hk0, hkey0⟩ := ih.mp h
          refine ⟨line :: pre, ln, post, by rw [heq]; rfl, ?_, k0, hk0, hkey0⟩
          intro l hl
          rcases List.mem_cons.mp hl with rfl | hl
          · exact ⟨k, v, hsp, hkey⟩
          · exact hpre l hl
      · exact absurd h (by simp)
    · rintro ⟨pre, ln, post, heq, hpre, k0, hk0, hkey0⟩
      rcases pre with _ | ⟨p, pre⟩
      · rw [List.nil_append] at heq
        injection heq with h1 h2
        subst h1
        subst h2
        rw [scanAccept, hk0]
        simp only []
        rw [if_pos hkey0]
        simp
      · obtain ⟨rfl, hrest⟩ : p = line ∧ rest = pre ++ ln :: post := by
          injection heq with h1 h2
          exact ⟨h1.symm, h2⟩
        obtain ⟨k, v, hsp, hkey⟩ := hpre p (by simp)
        rw [scanAccept, hsp]
        simp only []
        rw [if_neg hkey]
        exact ih.mpr ⟨pre, ln, post, hrest, fun l hl => hpre l (by simp [hl]), k0, hk0, hkey0⟩

theorem scanAccept_malformed_none (accept : List Char) (pre : List (List Char))
    (line : List Char) (post : List (List Char))
    (hpre : ∀ l ∈ pre, ∃ k v, splitOn2 ':' ' ' l = [k, v] ∧
      (k.map Char.toLower = acceptKey → False))
    (hline : (splitOn2 ':' ' ' line).length ≠ 2) :
    scanAccept accept (pre ++ line :: post) = none := by
  induction pre with
  | nil =>
    rw [List.nil_append, scanAccept]
    rcases hsp : splitOn2 ':' ' ' line with _ | ⟨k, _ | ⟨v, _ | _⟩⟩ <;> try rfl
    exact absurd (by simp [hsp]) hline
  | cons p pre ih =>
    obtain ⟨k, v, hsp, hkey⟩ := hpre p (by simp)
    rw [List.cons_append, scanAccept, hsp]
    simp only []
    rw [if_neg hkey]
    exact ih (fun l hl => hpre l (by simp [hl]))


theorem scanAccept_no_accept_false (accept : List Char) :
    ∀ ls : List (List Char),
    (∀ l ∈ ls, ∃ k v, splitOn2 ':' ' ' l = [k, v] ∧
      k.map Char.toLower ≠ acceptKey) →
    scanAccept accept ls = some false := by
  intro ls
  induction ls with
  | nil => intro _; rfl
  | cons line rest ih =>
    intro h
    obtain ⟨k, v, hsp, hkey⟩ := h line (by simp)
    rw [scanAccept, hsp]
    simp only []
    rw [if_neg hkey]
    exact ih (fun l hl => h l (by simp [hl]))

/-- C3 (amended): `check_handshake` returns true iff the first
CRLF-separated line is exactly the 101 status line and, scanning
subsequent lines in order, every line before the match splits into
exactly one key and one value at `": "` with lower-cased key different
from `sec-websocket-accept`, and the first line whose lower-cased key is
`sec-websocket-accept` carries exactly the expected accept value.  A
wrong status line yields false, and so does a response all of whose
lines are well-formed but none of which carries the accept key; but a
line that does not split into exactly two parts raises an exception
(modelled `none`) instead of returning false, and accept headers after
the first are never examined. -/
theorem C3_check_handshake_first_match (accept : List Char) (data : List Char) :
    (check_handshake accept data = some true ↔
      ∃ pre line post,
        splitOn2 '\r' '\n' data = statusLine :: (pre ++ line :: post) ∧
        (∀ l ∈ pre, ∃ k v, splitOn2 ':' ' ' l = [k, v] ∧
          k.map Char.toLower ≠ acceptKey) ∧
        ∃ k, splitOn2 ':' ' ' line = [k, accept] ∧ k.map Char.toLower = acceptKey) ∧
    (∀ first rest, splitOn2 '\r' '\n' data = first :: rest → ¬(first = statusLine) →
      check_handshake accept data = some false) ∧
    (∀ pre line post,
      splitOn2 '\r' '\n' data = statusLine :: (pre ++ line :: post) →
      (∀ l ∈ pre, ∃ k v, splitOn2 ':' ' ' l = [k, v] ∧
        k.map Char.toLower ≠ acceptKey) →
      (splitOn2 ':' ' ' line).length ≠ 2 →
      check_handshake accept data = none) ∧
    (∀ rest,
      splitOn2 '\r' '\n' data = statusLine :: rest →
      (∀ l ∈ rest, ∃ k v, splitOn2 ':' ' ' l = [k, v] ∧
        k.map Char.toLower ≠ acceptKey) →
      check_handshake accept data = some false) := by
  refine ⟨?_, ?_, ?_, ?_⟩
  · unfold check_handshake
    cases hsp : splitOn2 '\r' '\n' data with
    | nil =>
      constructor
      · intro h
        exact absurd h (by simp)
      · rintro ⟨pre, line, post, heq, -, -⟩
        exact absurd heq (by simp)
    | cons first rest =>
      by_cases hfirst : first = statusLine
      · subst hfirst
        show (if statusLine = statusLine then scanAccept accept rest else some false) =
          some true ↔ _
        rw [if_pos rfl, scanAccept_some_true_iff]
        constructor
        · rintro ⟨pre, line, post, heq, h1, h2⟩
          exact ⟨pre, line, post, by rw [heq], h1, h2⟩
        · rintro ⟨pre, line, post, heq, h1, h2⟩
          injection heq with h3 h4
          exact ⟨pre, line, post, h4, h1, h2⟩
      · show (if first = statusLine then scanAccept accept rest else some false) =
          some true ↔ _
        rw [if_neg hfirst]
        constructor
        · intro h
          exact absurd h (by simp)
        · rintro ⟨pre, line, post, heq, -, -⟩
          injection heq with h3 h4
          exact absurd h3 hfirst
  · intro first rest hsp hne
    unfold check_handshake
    rw [hsp]
    simp only []
    rw [if_neg hne]
  · intro pre line post hsp hpre hline
    unfold check_handshake
    rw [hsp]
    show (if statusLine = statusLine then scanAccept accept (pre ++ line :: post)
      else some false) = none
    rw [if_pos rfl]
    exact scanAccept_malformed_none accept pre line post hpre hline
  · intro rest hsp hwf
    unfold check_handshake
    rw [hsp]
    show (if statusLine = statusLine then scanAccept accept rest
      else some false) = some false
    rw [if_pos rfl]
    exact scanAccept_no_accept_false accept rest hwf

/-- C3 counterexample: a malformed header line makes `check_handshake`
raise (`none`) rather than return false, and a response whose second
accept header matches (after a mismatching first one) still returns
false, though a matching `sec-websocket-accept` line is present. -/
theorem C3_check_handshake_counterexample :
    check_handshake "A".toList
      ("HTTP/1.1 101 Switching Protocols".toList ++ '\r' :: '\n' :: "bad".toList) = none ∧
    check_handshake "A".toList
      ("HTTP/1.1 101 Switching Protocols".toList ++ '\r' :: '\n' ::
        "Sec-WebSocket-Accept: B".toList ++ '\r' :: '\n' ::
        "Sec-WebSocket-Accept: A".toList) = some false := by
  constructor
  · rfl
  · rfl

/-- Witness for C3: a well-formed 101 response whose only header is the
matching accept header validates. -/
theorem C3_check_handshake_first_match_witness :
    check_handshake "A".toList
      ("HTTP/1.1 101 Switching Protocols".toList ++ '\r' :: '\n' ::
        "Sec-WebSocket-Accept: A".toList) = some true :=
  (C3_check_handshake_first_match "A".toList _).1.mpr
    ⟨[], "Sec-WebSocket-Accept: A".toList, [], by rfl, by simp,
      "Sec-WebSocket-Accept".toList, by rfl, by rfl⟩


/-- An externally observable action of the websocket client: a decoded
frame handed to `frame_received`, a completed message dispatched to
`on_message`, bytes written to the transport, or the transport being
closed. -/
inductive Event where
  | frame (typ : FrameType) (slice : List Nat) (final : Bool)
  | msg (payload : List Nat)
  | send (bytes : List Nat)
  | transportClosed
deriving DecidableEq

/-- Post-handshake state of a `WebSocketClient` apart from the
receive-buffer tail `_data` (which the frame loop threads separately,
since none of the callbacks below ever modifies it): the fragment
accumulator `_payload`, the `_closing` flag, the outstanding ping token
`_wsping`, whether the transport is still open, and the trace of
observable events so far. -/
structure CoreState where
  payload : List Nat
  closing : Bool
  wsping : List Nat
  transportOpen : Bool
  events : List Event
deriving DecidableEq

/-- The fixed 2-byte `closing_handshake` frame 0x88 0x80. -/
def closing_handshake : List Nat := [136, 128]

/-- `WebSocketClient.close` after the handshake: always set `_closing`;
if the transport is not already closing, send the closing-handshake
frame and close the transport. -/
def close (st : CoreState) : CoreState :=
  if st.transportOpen then
    { st with
        closing := true
        transportOpen := false
        events := st.events ++ [Event.send closing_handshake, Event.transportClosed] }
  else { st with closing := true }

/-- `WebSocketClient.send_data`: write only while the transport is open
and not closing. -/
def send_data (st : CoreState) (bytes : List Nat) : CoreState :=
  if st.transportOpen then { st with events := st.events ++ [Event.send bytes] }
  else st

/-- `WebSocketClient.send_message`. -/
def send_message (st : CoreState) (typ : FrameType) (p : List Nat) : CoreState :=
  send_data st (pack typ p)

/-- `WebSocketClient.pong`. -/
def pong (st : CoreState) (p : List Nat) : CoreState :=
  send_message st .PONG p

/-- `str(time.time_ns() // 1_000_000).encode()`: the millisecond
timestamp rendered as decimal text bytes. -/
def msTextBytes (nowMs : Nat) : List Nat :=
  (Nat.repr nowMs).toList.map Char.toNat

/-- `WebSocketClient.ping`: a no-op when a ping is outstanding;
otherwise record the token (the supplied payload, or the millisecond
timestamp as text when empty) and send a ping frame. -/
def ping (st : CoreState) (payload : List Nat) (nowMs : Nat) : CoreState :=
  if st.wsping = [] then
    let token := if payload ≠ [] then payload else msTextBytes nowMs
    send_message { st with wsping := token } .PING token
  else st

/-- `WebSocketClient.on_pong`: ignore when no ping is outstanding; clear
the token on a match; close the connection otherwise. -/
def on_pong (st : CoreState) : CoreState :=
  if st.wsping = [] then st
  else if st.payload = st.wsping then { st with wsping := [] }
  else close st

/-- `WebSocketClient.on_ping`: reply with a pong carrying the same
payload. -/
def on_ping (st : CoreState) : CoreState :=
  pong st st.payload

/-- `WebSocketClient.frame_received`: append the frame payload slice to
the fragment accumulator; on a final frame dispatch by type and reset
the accumulator. -/
def frame_received (st : CoreState) (typ : FrameType) (slice : List Nat)
    (final : Bool) : CoreState :=
  let st1 := { st with
      payload := st.payload ++ slice
      events := st.events ++ [Event.frame typ slice final] }
  if final then
    let st2 :=
      match typ with
      | .TEXT | .BIN => { st1 with events := st1.events ++ [Event.msg st1.payload] }
      | .CLOSE => close st1
      | .PING => on_ping st1
      | .PONG => on_pong st1
      | .CONT => close st1
    { st2 with payload := [] }
  else st1

/-- The frame-decoding loop of `data_received` over the buffered bytes
`d`: stop while closing, when at most `FRAME_HEADER_SIZE` bytes remain,
on an incomplete header (length -1) or an incomplete payload; close on a
decode exception; otherwise consume one frame and continue.  Returns the
state and the retained tail.  Each step strictly shrinks the buffer, so
any fuel above the buffer length is enough. -/
def runAux : Nat → CoreState → List Nat → CoreState × List Nat
  | 0, c, d => (c, d)
  | fuel + 1, c, d =>
    if c.closing then (c, d)
    else if d.length ≤ FRAME_HEADER_SIZE then (c, d)
    else
      match unpack_from d 0 with
      | none => (close c, d)
      | some (typ, len, final) =>
        if len = -1 then (c, d)
        else
          let L := len.toNat
          let hs := headerSize L
          if d.length < hs + L then (c, d)
          else
            runAux fuel (frame_received c typ ((d.drop hs).take L) final)
              (d.drop (hs + L))

/-- The frame loop on the whole current buffer. -/
def run (c : CoreState) (d : List Nat) : CoreState × List Nat :=
  runAux (d.length + 1) c d

/-- `WebSocketClient.data_received` after the handshake: append the new
bytes to the buffered tail, then decode as many complete frames as
available, retaining the unconsumed tail. -/
def data_received (c : CoreState) (d : List Nat) (new : List Nat) :
    CoreState × List Nat :=
  run c (d ++ new)

theorem headerSize_ge_two (L : Nat) : 2 ≤ headerSize L := by
  unfold headerSize
  split_ifs <;> norm_num

theorem close_closing (st : CoreState) : (close st).closing = true := by
  unfold close
  split_ifs <;> rfl

theorem getD_append_lt (D b : List Nat) (i : Nat) (h : i < D.length) :
    (D ++ b).getD i 0 = D.getD i 0 := by
  simp [List.getD_eq_getElem?_getD, List.getElem?_append, h]

/-- A decode error depends only on the first byte, so it survives
appending further bytes. -/
theorem unpack_from_append_none (D b : List Nat) (h0 : 0 < D.length)
    (h : unpack_from D 0 = none) : unpack_from (D ++ b) 0 = none := by
  rw [unpack_from_none_iff] at h ⊢
  rwa [getD_append_lt D b 0 h0]

/-- A fully decoded header (length not -1) survives appending further
bytes: the decoded fields only depend on bytes the availability check
already guaranteed. -/
theorem unpack_from_append_some (D b : List Nat) (t : FrameType) (l : Int)
    (f : Bool) (hlen : 2 < D.length) (h : unpack_from D 0 = some (t, l, f))
    (hne : ¬(l = -1)) : unpack_from (D ++ b) 0 = some (t, l, f) := by
  have hg0 := getD_append_lt D b 0 (by omega)
  have hg1 := getD_append_lt D b 1 (by omega)
  have hnn : ¬(unpack_from D 0 = none) := by rw [h]; simp
  rw [unpack_from_none_iff] at hnn
  push_neg at hnn
  obtain ⟨h112, hofne⟩ := hnn
  obtain ⟨t0, hof⟩ := Option.ne_none_iff_exists'.mp hofne
  rw [unpack_from_ok D 0 t0 h112 hof] at h
  rw [unpack_from_ok (D ++ b) 0 t0 (by rwa [hg0]) (by rwa [hg0])]
  rw [show (0 : Nat) + 1 = 1 from rfl] at h ⊢
  rw [hg1, hg0]
  by_cases hc126 : (D.getD 1 0) &&& 127 = 126
  · rw [if_pos hc126] at h ⊢
    by_cases hav : D.length - 0 > FRAME_HEADER_SIZE + 2
    · rw [if_pos hav] at h
      have hav2 : (D ++ b).length - 0 > FRAME_HEADER_SIZE + 2 := by
        simp only [List.length_append]
        omega
      rw [if_pos hav2]
      have hsl : ((D ++ b).drop (0 + 2)).take 2 = (D.drop (0 + 2)).take 2 := by
        rw [List.drop_append_of_le_length (by simp only [FRAME_HEADER_SIZE] at hav; omega)]
        rw [List.take_append_of_le_length]
        simp only [List.length_drop, FRAME_HEADER_SIZE] at hav ⊢
        omega
      rw [hsl]
      exact h
    · rw [if_neg hav] at h
      simp only [Option.some.injEq, Prod.mk.injEq] at h
      exact absurd h.2.1.symm hne
  · rw [if_neg hc126] at h ⊢
    by_cases hc127 : (D.getD 1 0) &&& 127 = 127
    · rw [if_pos hc127] at h ⊢
      by_cases hav : D.length - 0 > FRAME_HEADER_SIZE + 8
      · rw [if_pos hav] at h
        have hav2 : (D ++ b).length - 0 > FRAME_HEADER_SIZE + 8 := by
          simp only [List.length_append]
          omega
        rw [if_pos hav2]
        have hsl : ((D ++ b).drop (0 + 2)).take 8 = (D.drop (0 + 2)).take 8 := by
          rw [List.drop_append_of_le_length (by simp only [FRAME_HEADER_SIZE] at hav; omega)]
          rw [List.take_append_of_le_length]
          simp only [List.length_drop, FRAME_HEADER_SIZE] at hav ⊢
          omega
        rw [hsl]
        exact h
      · rw [if_neg hav] at h
        simp only [Option.some.injEq, Prod.mk.injEq] at h
        exact absurd h.2.1.symm hne
    · rw [if_neg hc127] at h ⊢
      exact h

theorem runAux_fuel : ∀ f1 f2 : Nat, ∀ c : CoreState, ∀ d : List Nat,
    d.length < f1 → d.length < f2 → runAux f1 c d = runAux f2 c d := by
  intro f1
  induction f1 with
  | zero =>
    intro f2 c d h1 h2
    exact absurd h1 (by omega)
  | succ f1 ih =>
    intro f2 c d h1 h2
    cases f2 with
    | zero => exact absurd h2 (by omega)
    | succ f2 =>
      simp only [runAux]
      by_cases hcl : c.closing
      · rw [if_pos hcl, if_pos hcl]
      · rw [if_neg hcl, if_neg hcl]
        by_cases hlen : d.length ≤ FRAME_HEADER_SIZE
        · rw [if_pos hlen, if_pos hlen]
        · rw [if_neg hlen, if_neg hlen]
          cases hun : unpack_from d 0 with
          | none => rfl
          | some tlf =>
            obtain ⟨typ, len, fin⟩ := tlf
            simp only []
            by_cases hm1 : len = -1
            · rw [if_pos hm1, if_pos hm1]
            · rw [if_neg hm1, if_neg hm1]
              by_cases hcomp : d.length < headerSize len.toNat + len.toNat
              · rw [if_pos hcomp, if_pos hcomp]
              · rw [if_neg hcomp, if_neg hcomp]
                have hhs := headerSize_ge_two len.toNat
                have hdl : (d.drop (headerSize len.toNat + len.toNat)).length =
                    d.length - (headerSize len.toNat + len.toNat) := by
                  simp [List.length_drop]
                apply ih
                · rw [hdl]
                  simp only [FRAME_HEADER_SIZE] at hlen
                  omega
                · rw [hdl]
                  simp only [FRAME_HEADER_SIZE] at hlen
                  omega

theorem run_closing (c : CoreState) (d : List Nat) (hcl : c.closing = true) :
    run c d = (c, d) := by
  unfold run
  simp only [runAux]
  rw [if_pos hcl]

theorem run_short (c : CoreState) (d : List Nat)
    (hlen : d.length ≤ FRAME_HEADER_SIZE) : run c d = (c, d) := by
  unfold run
  simp only [runAux]
  by_cases hcl : c.closing
  · rw [if_pos hcl]
  · rw [if_neg hcl, if_pos hlen]

theorem run_decode_error (c : CoreState) (d : List Nat) (hcl : ¬(c.closing = true))
    (hlen : ¬(d.length ≤ FRAME_HEADER_SIZE)) (hun : unpack_from d 0 = none) :
    run c d = (close c, d) := by
  unfold run
  simp only [runAux]
  rw [if_neg hcl, if_neg hlen, hun]

theorem run_need_more (c : CoreState) (d : List Nat) (typ : FrameType) (fin : Bool)
    (hcl : ¬(c.closing = true)) (hlen : ¬(d.length ≤ FRAME_HEADER_SIZE))
    (hun : unpack_from d 0 = some (typ, -1, fin)) : run c d = (c, d) := by
  unfold run
  simp only [runAux]
  rw [if_neg hcl, if_neg hlen, hun]
  simp

theorem run_incomplete (c : CoreState) (d : List Nat) (typ : FrameType)
    (len : Int) (fin : Bool) (hcl : ¬(c.closing = true))
    (hlen : ¬(d.length ≤ FRAME_HEADER_SIZE))
    (hun : unpack_from d 0 = some (typ, len, fin)) (hm1 : ¬(len = -1))
    (hcomp : d.length < headerSize len.toNat + len.toNat) : run c d = (c, d) := by
  unfold run
  simp only [runAux]
  rw [if_neg hcl, if_neg hlen, hun]
  simp only []
  rw [if_neg hm1, if_pos hcomp]

theorem run_step (c : CoreState) (d : List Nat) (typ : FrameType)
    (len : Int) (fin : Bool) (hcl : ¬(c.closing = true))
    (hlen : ¬(d.length ≤ FRAME_HEADER_SIZE))
    (hun : unpack_from d 0 = some (typ, len, fin)) (hm1 : ¬(len = -1))
    (hcomp : ¬(d.length < headerSize len.toNat + len.toNat)) :
    run c d = run (frame_received c typ
        ((d.drop (headerSize len.toNat)).take len.toNat) fin)
      (d.drop (headerSize len.toNat + len.toNat)) := by
  unfold run
  conv =>
    lhs
    rw [runAux]
  rw [if_neg hcl, if_neg hlen, hun]
  simp only []
  rw [if_neg hm1, if_neg hcomp]
  apply runAux_fuel
  · simp only [List.length_drop, FRAME_HEADER_SIZE] at hlen ⊢
    have := headerSize_ge_two len.toNat
    omega
  · simp [List.length_drop]

theorem run_extend_aux : ∀ n : Nat, ∀ c : CoreState, ∀ d b : List Nat,
    d.length ≤ n → run c (d ++ b) = run (run c d).1 ((run c d).2 ++ b) := by
  intro n
  induction n with
  | zero =>
    intro c d b hle
    have hd : d = [] := List.eq_nil_of_length_eq_zero (by omega)
    subst hd
    rw [run_short c [] (by simp [FRAME_HEADER_SIZE])]
  | succ n ih =>
    intro c d b hle
    by_cases hcl : c.closing
    · rw [run_closing c d hcl]
    · by_cases hlen : d.length ≤ FRAME_HEADER_SIZE
      · rw [run_short c d hlen]
      · cases hun : unpack_from d 0 with
        | none =>
          rw [run_decode_error c d hcl hlen hun]
          have hlenb : ¬((d ++ b).length ≤ FRAME_HEADER_SIZE) := by
            simp only [List.length_append, FRAME_HEADER_SIZE] at hlen ⊢
            omega
          rw [run_decode_error c (d ++ b) hcl hlenb
            (unpack_from_append_none d b (by simp only [FRAME_HEADER_SIZE] at hlen; omega) hun)]
          rw [show ((close c, d).1 : CoreState) = close c from rfl,
            show ((close c, d).2 : List Nat) = d from rfl]
          rw [run_closing (close c) (d ++ b) (close_closing c)]
        | some tlf =>
          obtain ⟨typ, len, fin⟩ := tlf
          by_cases hm1 : len = -1
          · subst hm1
            rw [run_need_more c d typ fin hcl hlen hun]
          · by_cases hcomp : d.length < headerSize len.toNat + len.toNat
            · rw [run_incomplete c d typ len fin hcl hlen hun hm1 hcomp]
            · have hunb : unpack_from (d ++ b) 0 = some (typ, len, fin) :=
                unpack_from_append_some d b typ len fin
                  (by simp only [FRAME_HEADER_SIZE] at hlen; omega) hun hm1
              have hlenb : ¬((d ++ b).length ≤ FRAME_HEADER_SIZE) := by
                simp only [List.length_append, FRAME_HEADER_SIZE] at hlen ⊢
                omega
              have hcompb : ¬((d ++ b).length < headerSize len.toNat + len.toNat) := by
                simp only [List.length_append]
                omega
              rw [run_step c (d ++ b) typ len fin hcl hlenb hunb hm1 hcompb]
              have hsl : (((d ++ b)).drop (headerSize len.toNat)).take len.toNat =
                  (d.drop (headerSize len.toNat)).take len.toNat := by
                rw [List.drop_append_of_le_length (by omega)]
                rw [List.take_append_of_le_length (by simp only [List.length_drop]; omega)]
              have hdr : (d ++ b).drop (headerSize len.toNat + len.toNat) =
                  d.drop (headerSize len.toNat + len.toNat) ++ b :=
                List.drop_append_of_le_length (by omega)
              rw [hsl, hdr]
              have hhs := headerSize_ge_two len.toNat
              rw [ih (frame_received c typ ((d.drop (headerSize len.toNat)).take len.toNat) fin)
                (d.drop (headerSize len.toNat + len.toNat)) b
                (by simp only [List.length_drop]
                    simp only [FRAME_HEADER_SIZE] at hlen
                    omega)]
              rw [← run_step c d typ len fin hcl hlen hun hm1 hcomp]

theorem run_extend (c : CoreState) (d b : List Nat) :
    run c (d ++ b) = run (run c d).1 ((run c d).2 ++ b) :=
  run_extend_aux d.length c d b le_rfl

/-- The frame loop always stops in a state from which it cannot make
another step: closing, a tail of at most `FRAME_HEADER_SIZE` bytes, an
incomplete extended header, or an incomplete payload. -/
def Stuck (p : CoreState × List Nat) : Prop :=
  p.1.closing = true ∨ p.2.length ≤ FRAME_HEADER_SIZE ∨
  (∃ t : FrameType, ∃ f : Bool, unpack_from p.2 0 = some (t, -1, f)) ∨
  (∃ t : FrameType, ∃ l : Int, ∃ f : Bool, unpack_from p.2 0 = some (t, l, f) ∧
    ¬(l = -1) ∧ p.2.length < headerSize l.toNat + l.toNat)

theorem run_stuck : ∀ n : Nat, ∀ c : CoreState, ∀ d : List Nat,
    d.length ≤ n → Stuck (run c d) := by
  intro n
  induction n with
  | zero =>
    intro c d hle
    have hd : d = [] := List.eq_nil_of_length_eq_zero (by omega)
    subst hd
    rw [run_short c [] (by simp [FRAME_HEADER_SIZE])]
    right
    left
    simp [FRAME_HEADER_SIZE]
  | succ n ih =>
    intro c d hle
    by_cases hcl : c.closing
    · rw [run_closing c d hcl]
      exact Or.inl hcl
    · by_cases hlen : d.length ≤ FRAME_HEADER_SIZE
      · rw [run_short c d hlen]
        exact Or.inr (Or.inl hlen)
      · cases hun : unpack_from d 0 with
        | none =>
          rw [run_decode_error c d hcl hlen hun]
          exact Or.inl (close_closing c)
        | some tlf =>
          obtain ⟨typ, len, fin⟩ := tlf
          by_cases hm1 : len = -1
          · subst hm1
            rw [run_need_more c d typ fin hcl hlen hun]
            exact Or.inr (Or.inr (Or.inl ⟨typ, fin, hun⟩))
          · by_cases hcomp : d.length < headerSize len.toNat + len.toNat
            · rw [run_incomplete c d typ len fin hcl hlen hun hm1 hcomp]
              exact Or.inr (Or.inr (Or.inr ⟨typ, len, fin, hun, hm1, hcomp⟩))
            · rw [run_step c d typ len fin hcl hlen hun hm1 hcomp]
              have hhs := headerSize_ge_two len.toNat
              exact ih _ _ (by simp only [List.length_drop]
                               simp only [FRAME_HEADER_SIZE] at hlen
                               omega)

/-- C4 (amended): delivering a post-handshake byte sequence in one call
or split at any boundary across two `data_received` calls produces the
same final state, hence the identical sequence of dispatched frames and
messages; and after each call the loop is stuck on the retained tail:
the connection is closing, or at most 2 bytes remain (which includes a
complete empty-payload 2-byte frame standing at the very end of the
buffer -- such a frame is NOT decoded until more bytes arrive), or the
extended header or the payload is incomplete. -/
theorem C4_data_received_split_equiv :
    (∀ c : CoreState, ∀ d a b : List Nat,
        data_received (data_received c d a).1 (data_received c d a).2 b =
          data_received c d (a ++ b)) ∧
    (∀ c : CoreState, ∀ d new : List Nat, Stuck (data_received c d new)) := by
  constructor
  · intro c d a b
    unfold data_received
    rw [← List.append_assoc, run_extend c (d ++ a) b]
  · intro c d new
    unfold data_received
    exact run_stuck (d ++ new).length c (d ++ new) le_rfl

/-- C4 counterexample: a complete final empty-payload pong frame
`0x8A 0x00` delivered alone is complete within the buffered bytes (its
header decodes with length 0), yet `data_received` consumes nothing: no
frame is dispatched and the whole frame stays in the receive buffer. -/
theorem C4_data_received_counterexample :
    data_received (⟨[], false, [], true, []⟩ : CoreState) [] [138, 0] =
      ((⟨[], false, [], true, []⟩ : CoreState), [138, 0]) ∧
    unpack_from [138, 0] 0 = some (.PONG, 0, true) ∧
    FRAME_HEADER_SIZE + 0 ≤ ([138, 0] : List Nat).length := by
  refine ⟨rfl, by decide, by decide⟩

theorem toDigitsCore_length_ge (b : Nat) :
    ∀ f n : Nat, ∀ ds : List Char, ds.length ≤ (Nat.toDigitsCore b f n ds).length := by
  intro f
  induction f with
  | zero =>
    intro n ds
    simp [Nat.toDigitsCore]
  | succ f ih =>
    intro n ds
    rw [Nat.toDigitsCore]
    split_ifs
    · simp
    · calc ds.length ≤ (Nat.digitChar (n % b) :: ds).length := by simp
        _ ≤ _ := ih _ _

theorem msTextBytes_ne_nil (n : Nat) : ¬(msTextBytes n = []) := by
  unfold msTextBytes
  intro h
  rw [List.map_eq_nil] at h
  have hlist : (Nat.repr n).toList = (Nat.toDigits 10 n) := rfl
  rw [hlist] at h
  unfold Nat.toDigits at h
  rw [Nat.toDigitsCore] at h
  revert h
  split_ifs
  · simp
  · intro h
    have := toDigitsCore_length_ge 10 n (n / 10) [Nat.digitChar (n % 10)]
    rw [h] at this
    simp at this

/-- C6: `ping` is a no-op while a ping is outstanding (so at most one is
ever in flight); otherwise it records the token -- the supplied payload,
or the millisecond timestamp rendered as text when none is given, never
empty -- and sends a ping frame.  `on_pong` ignores a pong when no ping
is outstanding, clears the token when the accumulated payload matches
it, and otherwise closes the connection. -/
theorem C6_ping_pong_liveness :
    (∀ st : CoreState, ∀ p : List Nat, ∀ now : Nat,
        ¬(st.wsping = []) → ping st p now = st) ∧
    (∀ st : CoreState, ∀ p : List Nat, ∀ now : Nat, st.wsping = [] →
        (ping st p now).wsping = (if p = [] then msTextBytes now else p) ∧
        ¬((ping st p now).wsping = []) ∧
        (st.transportOpen = true →
          (ping st p now).events = st.events ++
            [Event.send (pack .PING (if p = [] then msTextBytes now else p))])) ∧
    (∀ st : CoreState, st.wsping = [] → on_pong st = st) ∧
    (∀ st : CoreState, ¬(st.wsping = []) → st.payload = st.wsping →
        on_pong st = { st with wsping := [] }) ∧
    (∀ st : CoreState, ¬(st.wsping = []) → ¬(st.payload = st.wsping) →
        on_pong st = close st ∧ (on_pong st).closing = true) := by
  refine ⟨?_, ?_, ?_, ?_, ?_⟩
  · intro st p now hout
    unfold ping
    rw [if_neg hout]
  · intro st p now hnone
    have htok : (if ¬(p = []) then p else msTextBytes now) =
        (if p = [] then msTextBytes now else p) := by
      by_cases hp : p = []
      · rw [if_neg (by simp [hp]), if_pos hp]
      · rw [if_pos hp, if_neg hp]
    unfold ping
    rw [if_pos hnone]
    simp only []
    rw [htok]
    unfold send_message send_data
    by_cases htr : st.transportOpen
    · rw [if_pos htr]
      refine ⟨rfl, ?_, fun _ => rfl⟩
      by_cases hp : p = []
      · rw [if_pos hp]
        exact msTextBytes_ne_nil now
      · rw [if_neg hp]
        exact hp
    · rw [if_neg htr]
      refine ⟨rfl, ?_, fun htr2 => absurd htr2 htr⟩
      by_cases hp : p = []
      · rw [if_pos hp]
        exact msTextBytes_ne_nil now
      · rw [if_neg hp]
        exact hp
  · intro st hnone
    unfold on_pong
    rw [if_pos hnone]
  · intro st hout hmatch
    unfold on_pong
    rw [if_neg hout, if_pos hmatch]
  · intro st hout hmis
    unfold on_pong
    rw [if_neg hout, if_neg hmis]
    exact ⟨rfl, close_closing st⟩

/-- Witness for C6 at concrete states: an outstanding ping makes `ping`
a no-op, and a matching pong clears the token. -/
theorem C6_ping_pong_liveness_witness :
    ping (⟨[], false, [49], true, []⟩ : CoreState) [7] 5 =
      (⟨[], false, [49], true, []⟩ : CoreState) ∧
    on_pong (⟨[49], false, [49], true, []⟩ : CoreState) =
      (⟨[49], false, [], true, []⟩ : CoreState) ∧
    on_pong (⟨[50], false, [49], true, []⟩ : CoreState) =
      close (⟨[50], false, [49], true, []⟩ : CoreState) :=
  ⟨C6_ping_pong_liveness.1 _ [7] 5 (by decide),
   C6_ping_pong_liveness.2.2.2.1 _ (by decide) (by decide),
   (C6_ping_pong_liveness.2.2.2.2 _ (by decide) (by decide)).1⟩

/-- Number of dispatched messages in an event trace. -/
def countMsg (evs : List Event) : Nat :=
  (evs.filter fun e => match e with | Event.msg _ => true | _ => false).length

theorem countMsg_append (l1 l2 : List Event) :
    countMsg (l1 ++ l2) = countMsg l1 + countMsg l2 := by
  simp [countMsg, List.filter_append]

theorem countMsg_close (st : CoreState) :
    countMsg (close st).events = countMsg st.events := by
  unfold close
  split_ifs <;> simp [countMsg_append, countMsg]

theorem countMsg_send_data (st : CoreState) (bs : List Nat) :
    countMsg (send_data st bs).events = countMsg st.events := by
  unfold send_data
  split_ifs <;> simp [countMsg_append, countMsg]

theorem countMsg_on_pong (st : CoreState) :
    countMsg (on_pong st).events = countMsg st.events := by
  unfold on_pong
  split_ifs <;> simp [countMsg_close]

theorem countMsg_frame (t : FrameType) (sl : List Nat) (f : Bool) :
    countMsg [Event.frame t sl f] = 0 := rfl

theorem countMsg_msg (p : List Nat) : countMsg [Event.msg p] = 1 := rfl

theorem countMsg_nil : countMsg [] = 0 := rfl

theorem countMsg_cons_frame (t : FrameType) (sl : List Nat) (f : Bool)
    (rest : List Event) : countMsg (Event.frame t sl f :: rest) = countMsg rest := rfl

theorem countMsg_cons_msg (p : List Nat) (rest : List Event) :
    countMsg (Event.msg p :: rest) = countMsg rest + 1 := by
  simp [countMsg, List.filter]

/-- C10: a final frame with the continuation opcode (the standard RFC6455
way to end a fragmented message) never delivers the accumulated message:
it falls through the dispatch as an unrecognized frame type and the
connection is closed (sending the closing handshake when the transport
is open).  A message is dispatched exactly when the final frame's own
opcode is text or binary, and then it carries the accumulated payload. -/
theorem C10_continuation_final_not_delivered :
    (∀ st : CoreState, ∀ sl : List Nat,
        (frame_received st .CONT sl true).closing = true) ∧
    (∀ st : CoreState, ∀ sl : List Nat, st.transportOpen = true →
        (frame_received st .CONT sl true).events =
          st.events ++ [Event.frame .CONT sl true, Event.send closing_handshake,
            Event.transportClosed]) ∧
    (∀ st : CoreState, ∀ typ : FrameType, ∀ sl : List Nat, ∀ fin : Bool,
        countMsg (frame_received st typ sl fin).events =
          countMsg st.events +
            (if fin = true ∧ (typ = .TEXT ∨ typ = .BIN) then 1 else 0)) ∧
    (∀ st : CoreState, ∀ typ : FrameType, ∀ sl : List Nat,
        typ = .TEXT ∨ typ = .BIN →
        (frame_received st typ sl true).events =
          st.events ++ [Event.frame typ sl true, Event.msg (st.payload ++ sl)]) := by
  refine ⟨?_, ?_, ?_, ?_⟩
  · intro st sl
    unfold frame_received
    simp only []
    exact close_closing _
  · intro st sl htr
    unfold frame_received close
    simp only []
    rw [if_pos htr]
    simp
  · intro st typ sl fin
    unfold frame_received
    cases fin <;> cases typ <;>
      simp [countMsg_append, countMsg_frame, countMsg_msg, countMsg_close,
        countMsg_on_pong, on_ping, pong, countMsg_send_data, send_message,
        countMsg_nil, countMsg_cons_frame, countMsg_cons_msg]
  · intro st typ sl hor
    rcases hor with rfl | rfl <;>
      (unfold frame_received; simp)

/-- Witness for C10: a final continuation frame closes an open
connection without dispatching the accumulated fragments. -/
theorem C10_continuation_final_not_delivered_witness :
    (frame_received (⟨[3], false, [], true, []⟩ : CoreState) .CONT [4] true).closing = true ∧
    (frame_received (⟨[3], false, [], true, []⟩ : CoreState) .CONT [4] true).events =
      [Event.frame .CONT [4] true, Event.send closing_handshake, Event.transportClosed] ∧
    (frame_received (⟨[3], false, [], true, []⟩ : CoreState) .TEXT [4] true).events =
      [Event.frame .TEXT [4] true, Event.msg [3, 4]] :=
  ⟨C10_continuation_final_not_delivered.1 _ [4],
   C10_continuation_final_not_delivered.2.1 _ [4] (by decide),
   C10_continuation_final_not_delivered.2.2.2 _ .TEXT [4] (Or.inl rfl)⟩

/-- One flush cycle of `Trader.run` for one instrument, with the bytes
the connection task appends concurrently made explicit: `a1` arrives
after the snapshot `length = len(buffer[idx])` but before the write
reads `buffer[idx][:length]`, and `a2` arrives before the truncation
`buffer[idx] = buffer[idx][length:]`.  Returns the compressed file
content and the buffer left for the next cycle. -/
def flushCycle (compress : List Nat → List Nat) (buf a1 a2 : List Nat) :
    List Nat × List Nat :=
  let length := buf.length
  let file := compress ((buf ++ a1).take length)
  (file, ((buf ++ a1) ++ a2).drop length)

/-- The segment file name: `cur_time = time.time_ns() // 1_000_000_000`
floored to the minute by `cur_time -= cur_time % 60`. -/
def minuteFloor (t_ns : Nat) : Nat :=
  let s := t_ns / 1000000000
  s - s % 60

/-- The very first wake of the flush loop: every buffer is reset and no
file is written. -/
def firstWake (bufs : List (List Nat)) : List (List Nat) × List (List Nat) :=
  ([], bufs.map fun _ => [])

/-- C5: a flush cycle writes exactly the compressed snapshot prefix (the
N bytes present at the snapshot), leaves exactly the later-appended M
bytes in the buffer (nothing duplicated, nothing lost), names the file
by the unix timestamp floored to the minute, and the very first wake
resets all buffers and writes no file. -/
theorem C5_flush_no_loss (compress : List Nat → List Nat) (buf a1 a2 : List Nat)
    (t_ns : Nat) (bufs : List (List Nat)) :
    (flushCycle compress buf a1 a2).1 = compress buf ∧
    (flushCycle compress buf a1 a2).2 = a1 ++ a2 ∧
    60 ∣ minuteFloor t_ns ∧
    minuteFloor t_ns ≤ t_ns / 1000000000 ∧
    t_ns / 1000000000 < minuteFloor t_ns + 60 ∧
    (firstWake bufs).1 = [] ∧
    (firstWake bufs).2 = List.replicate bufs.length [] := by
  refine ⟨?_, ?_, ?_, ?_, ?_, rfl, ?_⟩
  · show compress ((buf ++ a1).take buf.length) = compress buf
    rw [List.take_left]
  · show ((buf ++ a1) ++ a2).drop buf.length = a1 ++ a2
    rw [List.append_assoc, List.drop_left]
  · refine ⟨t_ns / 1000000000 / 60, ?_⟩
    show t_ns / 1000000000 - t_ns / 1000000000 % 60 = _
    omega
  · show t_ns / 1000000000 - t_ns / 1000000000 % 60 ≤ _
    omega
  · show t_ns / 1000000000 < t_ns / 1000000000 - t_ns / 1000000000 % 60 + 60
    omega
  · show bufs.map (fun _ => []) = List.replicate bufs.length []
    simp

/-- An observable action of the per-instrument supervisor loop. -/
inductive SupEvent where
  | connectAttempt
  | sleepCooldown (d : Nat)
  | loopStop
deriving DecidableEq

/-- `Trader.__run_recorder` on a transport where every connection
attempt fails: each of the `k` iterations of
`for _ in range(maximum_reconnect_tries)` attempts a connection (which
raises and is logged), then the `finally` clause sleeps the configured
reconnect cooldown; after the loop, `self.loop.stop()` halts the event
loop. -/
def run_recorder_all_fail (cooldown : Nat) : Nat → List SupEvent
  | 0 => [SupEvent.loopStop]
  | k + 1 => SupEvent.connectAttempt :: SupEvent.sleepCooldown cooldown ::
      run_recorder_all_fail cooldown k

/-- C7: with `maximum_reconnect_tries = k` and an always-failing
transport, exactly `k` connection attempts occur, each immediately
followed by a cooldown sleep, and after the k-th attempt the loop stops
the process event loop (the trace ends with `loopStop` and nothing
follows it). -/
theorem C7_reconnect_budget (k cooldown : Nat) :
    (run_recorder_all_fail cooldown k).count SupEvent.connectAttempt = k ∧
    (run_recorder_all_fail cooldown k).count (SupEvent.sleepCooldown cooldown) = k ∧
    run_recorder_all_fail cooldown k =
      (List.replicate k [SupEvent.connectAttempt, SupEvent.sleepCooldown cooldown]).join
        ++ [SupEvent.loopStop] ∧
    (run_recorder_all_fail cooldown k).getLast? = some SupEvent.loopStop := by
  have h3 : run_recorder_all_fail cooldown k =
      (List.replicate k [SupEvent.connectAttempt, SupEvent.sleepCooldown cooldown]).join
        ++ [SupEvent.loopStop] := by
    induction k with
    | zero => rfl
    | succ k ih => simp [run_recorder_all_fail, List.replicate_succ, ih]
  refine ⟨?_, ?_, h3, ?_⟩
  · clear h3
    induction k with
    | zero => rfl
    | succ k ih => simp [run_recorder_all_fail, List.count_cons, ih]
  · clear h3
    induction k with
    | zero => rfl
    | succ k ih => simp [run_recorder_all_fail, List.count_cons, ih]
  · rw [h3]
    exact List.getLast?_concat _

/-- The state a `Recorder` touches: the shared buffer list, its own
index, the next-expected-receive deadline, and the receive interval in
nanoseconds (`config["recv_interval"] * 1_000_000`, set at
construction). -/
structure RecorderState where
  bufs : List (List Nat)
  idx : Nat
  next_recv_ts_ns : Nat
  recv_interval : Nat
deriving DecidableEq

/-- One `buffer[idx] += d` append into the shared buffer list. -/
def bufAppend (bufs : List (List Nat)) (idx : Nat) (d : List Nat) :
    List (List Nat) :=
  bufs.set idx (bufs.getD idx [] ++ d)

/-- `Recorder.on_message`: append the accumulated payload and then a
single NUL delimiter byte to this instrument's slot. -/
def recorder_on_message (st : RecorderState) (payload : List Nat) :
    RecorderState :=
  { st with bufs := bufAppend (bufAppend st.bufs st.idx payload) st.idx [0] }

/-- `Recorder.on_data_end`: advance the next-expected-receive deadline
to now plus the receive interval. -/
def recorder_on_data_end (st : RecorderState) (now_ns : Nat) : RecorderState :=
  { st with next_recv_ts_ns := now_ns + st.recv_interval }

theorem getD_set_self (l : List (List Nat)) (i : Nat) (v : List Nat)
    (h : i < l.length) : (l.set i v).getD i [] = v := by
  simp [List.getD_eq_getElem?_getD, List.getElem?_set_eq h]

theorem getD_set_ne (l : List (List Nat)) (i j : Nat) (v : List Nat)
    (h : ¬(j = i)) : (l.set i v).getD j [] = l.getD j [] := by
  simp [List.getD_eq_getElem?_getD,
    List.getElem?_set_ne (fun a => h (id (Eq.symm a)))]

/-- C9: on each complete message the Recorder appends the accumulated
payload followed by exactly one NUL byte to the shared buffer slot at
its own index, leaves every other slot (and the slot count) unchanged,
and -- via `on_data_end`, which runs at the end of the same
`data_received` call -- advances the next-expected-receive deadline to
the current time plus the configured receive interval. -/
theorem C9_recorder_append (st : RecorderState) (payload : List Nat)
    (now_ns : Nat) (h : st.idx < st.bufs.length) :
    (recorder_on_data_end (recorder_on_message st payload) now_ns).bufs.getD st.idx []
      = st.bufs.getD st.idx [] ++ payload ++ [0] ∧
    (∀ j, ¬(j = st.idx) →
      (recorder_on_data_end (recorder_on_message st payload) now_ns).bufs.getD j []
        = st.bufs.getD j []) ∧
    (recorder_on_data_end (recorder_on_message st payload) now_ns).bufs.length
      = st.bufs.length ∧
    (recorder_on_data_end (recorder_on_message st payload) now_ns).next_recv_ts_ns
      = now_ns + st.recv_interval := by
  have hlen1 : (bufAppend st.bufs st.idx payload).length = st.bufs.length := by
    simp [bufAppend]
  refine ⟨?_, ?_, ?_, rfl⟩
  · show (bufAppend (bufAppend st.bufs st.idx payload) st.idx [0]).getD st.idx [] = _
    unfold bufAppend
    rw [getD_set_self _ _ _ (by rw [List.length_set]; omega)]
    rw [getD_set_self _ _ _ h]
  · intro j hj
    show (bufAppend (bufAppend st.bufs st.idx payload) st.idx [0]).getD j [] = _
    unfold bufAppend
    rw [getD_set_ne _ _ _ _ hj, getD_set_ne _ _ _ _ hj]
  · show (bufAppend (bufAppend st.bufs st.idx payload) st.idx [0]).length = _
    simp [bufAppend]

/-- Witness for C9 on a two-instrument buffer list. -/
theorem C9_recorder_append_witness :
    (recorder_on_data_end (recorder_on_message ⟨[[1], [9]], 0, 0, 5⟩ [2]) 7).bufs.getD 0 []
      = [1] ++ [2] ++ [0] ∧
    (recorder_on_data_end (recorder_on_message ⟨[[1], [9]], 0, 0, 5⟩ [2]) 7).bufs.getD 1 []
      = [9] ∧
    (recorder_on_data_end (recorder_on_message ⟨[[1], [9]], 0, 0, 5⟩ [2]) 7).next_recv_ts_ns
      = 7 + 5 :=
  ⟨(C9_recorder_append ⟨[[1], [9]], 0, 0, 5⟩ [2] 7 (by decide)).1,
   (C9_recorder_append ⟨[[1], [9]], 0, 0, 5⟩ [2] 7 (by decide)).2.1 1 (by decide),
   (C9_recorder_append ⟨[[1], [9]], 0, 0, 5⟩ [2] 7 (by decide)).2.2.2⟩

/-- 32-bit left rotation. -/
def rotl32 (x n : Nat) : Nat :=
  (((x <<< n) % 4294967296) ||| (x >>> (32 - n)))

/-- 32-bit complement. -/
def bnot32 (x : Nat) : Nat := 4294967295 ^^^ x

/-- SHA-1 padding: append 0x80, zeros to 56 mod 64, then the 8-byte
big-endian bit length. -/
def sha1pad (msg : List Nat) : List Nat :=
  let L := msg.length
  let z := (120 - ((L + 1) % 64)) % 64
  msg ++ [128] ++ List.replicate z 0 ++ toBytesBE 8 (L * 8)

/-- The sixteen 32-bit big-endian words of a 64-byte chunk. -/
def words16 (chunk : List Nat) : List Nat :=
  (List.range 16).map fun i => fromBytesBE ((chunk.drop (4 * i)).take 4)

/-- Message-schedule extension: append `n` more words, each the 1-bit
rotation of the xor of the words 3, 8, 14 and 16 positions back. -/
def extendW : Nat → List Nat → List Nat
  | 0, w => w
  | n + 1, w =>
    extendW n (w ++ [rotl32 ((w.getD (w.length - 3) 0) ^^^ (w.getD (w.length - 8) 0)
      ^^^ (w.getD (w.length - 14) 0) ^^^ (w.getD (w.length - 16) 0)) 1])

/-- One SHA-1 round. -/
def sha1round (i : Nat) (st : Nat × Nat × Nat × Nat × Nat) (wi : Nat) :
    Nat × Nat × Nat × Nat × Nat :=
  let (a, b, c, d, e) := st
  let f :=
    if i < 20 then (b &&& c) ||| ((bnot32 b) &&& d)
    else if i < 40 then b ^^^ c ^^^ d
    else if i < 60 then (b &&& c) ||| (b &&& d) ||| (c &&& d)
    else b ^^^ c ^^^ d
  let k :=
    if i < 20 then 1518500249
    else if i < 40 then 1859775393
    else if i < 60 then 2400959708
    else 3395469782
  let temp := (rotl32 a 5 + f + e + k + wi) % 4294967296
  (temp, a, rotl32 b 30, c, d)

/-- Run the 80 rounds over the extended schedule. -/
def sha1rounds (i : Nat) (st : Nat × Nat × Nat × Nat × Nat) :
    List Nat → Nat × Nat × Nat × Nat × Nat
  | [] => st
  | wi :: rest => sha1rounds (i + 1) (sha1round i st wi) rest

/-- Compress one 64-byte chunk into the running digest state. -/
def sha1chunk (h : Nat × Nat × Nat × Nat × Nat) (chunk : List Nat) :
    Nat × Nat × Nat × Nat × Nat :=
  let (h0, h1, h2, h3, h4) := h
  let w := extendW 64 (words16 chunk)
  let (a, b, c, d, e) := sha1rounds 0 h w
  ((h0 + a) % 4294967296, (h1 + b) % 4294967296, (h2 + c) % 4294967296,
   (h3 + d) % 4294967296, (h4 + e) % 4294967296)

/-- Fold the digest state over consecutive 64-byte chunks (fuel-driven;
any fuel at least the number of chunks is enough, the caller passes the
byte length). -/
def sha1chunks : Nat → (Nat × Nat × Nat × Nat × Nat) → List Nat →
    Nat × Nat × Nat × Nat × Nat
  | _, h, [] => h
  | 0, h, _ => h
  | fuel + 1, h, data => sha1chunks fuel (sha1chunk h (data.take 64)) (data.drop 64)

/-- SHA-1 of a byte list, as `hashlib.sha1(...).digest()` computes. -/
def sha1 (msg : List Nat) : List Nat :=
  let padded := sha1pad msg
  let h := sha1chunks padded.length
    (1732584193, 4023233417, 2562383102, 271733878, 3285377520) padded
  toBytesBE 4 h.1 ++ toBytesBE 4 h.2.1 ++ toBytesBE 4 h.2.2.1 ++
    toBytesBE 4 h.2.2.2.1 ++ toBytesBE 4 h.2.2.2.2

/-- The standard base64 alphabet. -/
def b64alphabet : List Char :=
  "ABCDEFGHIJKLMNOPQRSTUVWXYZabcdefghijklmnopqrstuvwxyz0123456789+/".toList

/-- One base64 output character. -/
def b64char (i : Nat) : Char := b64alphabet.getD i ' '

/-- Base64 encoding with `=` padding, as `base64.b64encode` computes. -/
def b64encode : List Nat → List Char
  | [] => []
  | [b1] => [b64char (b1 >>> 2), b64char ((b1 &&& 3) <<< 4), '=', '=']
  | [b1, b2] => [b64char (b1 >>> 2), b64char (((b1 &&& 3) <<< 4) ||| (b2 >>> 4)),
      b64char ((b2 &&& 15) <<< 2), '=']
  | b1 :: b2 :: b3 :: rest =>
    b64char (b1 >>> 2) :: b64char (((b1 &&& 3) <<< 4) ||| (b2 >>> 4)) ::
      b64char (((b2 &&& 15) <<< 2) ||| (b3 >>> 6)) :: b64char (b3 &&& 63) ::
      b64encode rest

/-- The RFC6455 magic GUID `MAGIC`, as ASCII bytes. -/
def MAGIC : List Nat := "258EAFA5-E914-47DA-95CA-C5AB0DC85B11".toList.map Char.toNat

/-- The accept computation of `WebSocketHelper.__init__`:
`base64.b64encode(hashlib.sha1(self.__key + MAGIC).digest())`. -/
def accept_value (key : List Nat) : List Char :=
  b64encode (sha1 (key ++ MAGIC))

set_option maxRecDepth 10000 in
/-- C8: the handshake accept value is base64(SHA-1(key ++ magic GUID));
on the RFC6455 reference key it yields the reference accept value. -/
theorem C8_accept_rfc_vector :
    accept_value ("dGhlIHNhbXBsZSBub25jZQ==".toList.map Char.toNat) =
      "s3pPLMBiTxaQ9kYGzzhZRbK+xOo=".toList := by
  decide

end Zeus
